import Mathlib

/-!
Verification of the analytics historical endpoint
(`src/sigle/src/pages/api/analytics/historical.api.ts`).

Shallow embedding conventions:
* Calendar dates are `Ymd` triples.  In the source, bucket dates and
  provider dates are `yyyy-MM-dd` strings produced by `format`; that
  format is a bijection between valid calendar days and canonical
  strings, so exact string matching on dates is modelled as `Ymd`
  equality.  `formatYmd` is kept for message strings.
* `new Date()` (captured once as `dateTo`) is a `LocalTime`: a calendar
  day plus the minutes elapsed since local midnight.  `date-fns`
  `parse` with format `yyyy-MM-dd` yields local midnight of the parsed
  day, `addDays` advances one calendar day preserving the time of day,
  and `isBefore` compares instants, which on local wall-clock values is
  the lexicographic order used here.
* JavaScript numbers arising from `parseInt(s, 10)` are `Option Int`
  (`none` models `NaN`); `+=` is NaN-propagating addition.
* The Next.js response object is modelled as the ordered list of
  attempted sends.  Node delivers the first completed response to the
  client (later writes fail with headers-already-sent), so the
  client-visible response is the head of that list.
* External collaborators (`getBucketUrl`, `getPublicStories`, the
  fathom client, `Sentry.captureMessage`) are an `Env` record of pure
  functions/values, per-request.
-/

namespace Sigle

/-- A calendar date, the content of a `yyyy-MM-dd` date string. -/
structure Ymd where
  year : Nat
  month : Nat
  day : Nat
deriving DecidableEq, Repr

/-- Proleptic Gregorian leap-year rule (as implemented by JS `Date`). -/
def isLeap (y : Nat) : Bool :=
  y % 4 == 0 && (y % 100 != 0 || y % 400 == 0)

/-- Number of days of month `m` of year `y`. -/
def daysInMonth (y m : Nat) : Nat :=
  if m == 2 then (if isLeap y then 29 else 28)
  else if m == 4 || m == 6 || m == 9 || m == 11 then 30
  else 31

/-- `d` is a real calendar day. -/
def Ymd.valid (d : Ymd) : Prop :=
  1 ≤ d.month ∧ d.month ≤ 12 ∧ 1 ≤ d.day ∧ d.day ≤ daysInMonth d.year d.month

instance (d : Ymd) : Decidable d.valid := by
  unfold Ymd.valid
  infer_instance

/-- Calendar (lexicographic) strict order on dates. -/
def Ymd.lt (a b : Ymd) : Prop :=
  a.year < b.year ∨
    (a.year = b.year ∧
      (a.month < b.month ∨ (a.month = b.month ∧ a.day < b.day)))

instance (a b : Ymd) : Decidable (a.lt b) := by
  unfold Ymd.lt
  infer_instance

/-- Calendar non-strict order on dates. -/
def Ymd.le (a b : Ymd) : Prop :=
  a = b ∨ a.lt b

instance (a b : Ymd) : Decidable (a.le b) := by
  unfold Ymd.le
  infer_instance

/-- The successor calendar day: models `date-fns` `addDays(date, 1)`. -/
def nextDay (d : Ymd) : Ymd :=
  if d.day < daysInMonth d.year d.month then ⟨d.year, d.month, d.day + 1⟩
  else if d.month < 12 then ⟨d.year, d.month + 1, 1⟩
  else ⟨d.year + 1, 1, 1⟩

/-- A monotone integer coordinate for dates, used for fuel bounds. -/
def Ymd.ord (d : Ymd) : Nat :=
  d.year * 372 + d.month * 31 + d.day

/-- Local wall-clock instant: a calendar day plus minutes since its
local midnight (`minute = 0` is exactly midnight). -/
structure LocalTime where
  date : Ymd
  minute : Nat
deriving DecidableEq, Repr

/-- `isBefore(local midnight of d, now)` on wall-clock instants. -/
def beforeNow (d : Ymd) (now : LocalTime) : Prop :=
  d.lt now.date ∨ (d = now.date ∧ 0 < now.minute)

instance (d : Ymd) (now : LocalTime) : Decidable (beforeNow d now) := by
  unfold beforeNow
  infer_instance

/-- Value of a nonempty all-digit character list, `none` otherwise. -/
def digitsVal (cs : List Char) : Option Nat :=
  if cs ≠ [] ∧ cs.all Char.isDigit then
    some (cs.foldl (fun a c => a * 10 + (c.toNat - 48)) 0)
  else none

/-- Split a character list at every hyphen (the splitting done by
matching the `yyyy-MM-dd` format: literal hyphens between digit runs). -/
def splitDash : List Char → List (List Char)
  | [] => [[]]
  | c :: t =>
    if c = '-' then [] :: splitDash t
    else
      match splitDash t with
      | [] => [[c]]
      | h :: r => (c :: h) :: r

/-- Models `date-fns` `parse(s, 'yyyy-MM-dd', ref)` followed by
`isValid`: `yyyy`/`MM`/`dd` each match a maximal run of at most 4/2/2
digits separated by literal hyphens, the whole string must be consumed,
and the day-of-month is validated against the (leap-aware) month
length.  Success yields local midnight of the parsed day. -/
def parseYmd (s : String) : Option Ymd :=
  match splitDash s.data with
  | [ys, ms, ds] =>
    if ys.length ≤ 4 ∧ ms.length ≤ 2 ∧ ds.length ≤ 2 then
      match digitsVal ys, digitsVal ms, digitsVal ds with
      | some y, some m, some d =>
        if 1 ≤ m ∧ m ≤ 12 ∧ 1 ≤ d ∧ d ≤ daysInMonth y m then
          some ⟨y, m, d⟩
        else none
      | _, _, _ => none
    else none
  | _ => none

/-- Left-pad a decimal representation with zeros to width `w`. -/
def padNat (w n : Nat) : String :=
  let r := toString n
  String.mk (List.replicate (w - r.length) '0') ++ r

/-- Models `format(date, 'yyyy-MM-dd')`; used in log messages. -/
def formatYmd (d : Ymd) : String :=
  padNat 4 d.year ++ "-" ++ padNat 2 d.month ++ "-" ++ padNat 2 d.day

/-- A JavaScript number produced by integer parsing/addition:
`none` models `NaN`. -/
abbrev JsNum := Option Int

/-- NaN-propagating addition. -/
def jsAdd : JsNum → JsNum → JsNum
  | some a, some b => some (a + b)
  | _, _ => none

/-- Value of the maximal leading digit run, `none` if it is empty. -/
def leadingDigitsVal (cs : List Char) : Option Nat :=
  digitsVal (cs.takeWhile Char.isDigit)

/-- Models JS `parseInt(s, 10)`: an optional sign followed by a
maximal (possibly proper) prefix of digits; `none` (NaN) when no digit
is found. -/
def parseInt10 (s : String) : JsNum :=
  match s.data with
  | '-' :: cs => (leadingDigitsVal cs).map (fun n => -(n : Int))
  | '+' :: cs => (leadingDigitsVal cs).map (fun n => (n : Int))
  | cs => (leadingDigitsVal cs).map (fun n => (n : Int))

/-- One element of `AnalyticsHistoricalResponse`: `{ date, visits,
pageviews }` with the date string represented by its `Ymd` content. -/
structure Bucket where
  date : Ymd
  visits : JsNum
  pageviews : JsNum
deriving DecidableEq, Repr

/-- One element of a fathom `aggregatePath` result: `{ date, visits,
pageviews }`, numeric fields as strings. -/
structure FathomResult where
  date : Ymd
  visits : String
  pageviews : String
deriving DecidableEq, Repr

/-- The hard-coded username of the endpoint. -/
def username : String := "sigleapp.id.blockstack"

/-- Body of a response sent via `res.json`. -/
inductive RspBody where
  | errBody (error : String)
  | dataBody (buckets : List Bucket)
deriving DecidableEq, Repr

/-- One attempted `res.status(...).json(...)` call. -/
structure Rsp where
  status : Nat
  body : RspBody
deriving DecidableEq, Repr

/-- The query parameters the handler reads, plus an opaque requester
identity (session/cookies) that the source never reads. -/
structure Req where
  dateFrom : Option String
  dateGrouping : Option String
  requester : Option String

/-- External collaborators and ambient state of one request:
the captured `new Date()`, the `getBucketUrl` result, the
`getPublicStories` story ids, the fathom client
(`dateFrom → dateGrouping → path → results`), and
`Sentry.captureMessage` (`message → errorId`). -/
structure Env where
  now : LocalTime
  profile : Option Unit
  bucketUrl : Option String
  stories : List String
  aggregate : String → String → String → List FathomResult
  capture : String → String

/-- JS falsiness of an optional string (`undefined` and `""`). -/
def falsyStr : Option String → Prop
  | none => True
  | some s => s = ""

instance (o : Option String) : Decidable (falsyStr o) := by
  unfold falsyStr
  cases o <;> infer_instance

/-- The scaffolding `while (isBefore(parsedDateFrom, dateTo))` loop,
with explicit fuel (each iteration advances `Ymd.ord` by at least 1,
so the fuel chosen in `scaffold` suffices). -/
def scaffoldAux : Nat → Ymd → LocalTime → List Bucket
  | 0, _, _ => []
  | fuel + 1, cur, now =>
    if beforeNow cur now then
      ⟨cur, some 0, some 0⟩ :: scaffoldAux fuel (nextDay cur) now
    else []

/-- The date-range scaffolder: one zero bucket per calendar day from
`start` (inclusive) while its midnight is before `now`. -/
def scaffold (start : Ymd) (now : LocalTime) : List Bucket :=
  scaffoldAux (now.date.ord + 1 - start.ord) start now

/-- `storiesPath`: one path per public story, then the root path. -/
def storiesPath (stories : List String) : List String :=
  (stories.map fun sid => "/" ++ username ++ "/" ++ sid) ++ ["/" ++ username]

/-- The fan-out of `fathomClient.aggregatePath` over `storiesPath`. -/
def fetchStage (env : Env) (dateFrom dateGrouping : String) :
    List (List FathomResult) :=
  (storiesPath env.stories).map fun path =>
    env.aggregate dateFrom dateGrouping path

/-- `datesValues`: a date-keyed accumulator, kept in insertion order
(JS object keys of `yyyy-MM-dd` form enumerate in insertion order). -/
abbrev DatesValues := List (Ymd × (JsNum × JsNum))

/-- Lookup in the accumulator (`datesValues[date]`; keys are kept
unique, so first match is the entry). -/
def dvFind : DatesValues → Ymd → Option (JsNum × JsNum)
  | [], _ => none
  | p :: t, d => if p.1 = d then some p.2 else dvFind t d

/-- One provider row into the accumulator: initialize the date's entry
to zeros on first encounter, then `+=` the parsed fields. -/
def dvStep (m : DatesValues) (r : FathomResult) : DatesValues :=
  let m' := if (dvFind m r.date).isSome then m
            else m ++ [(r.date, (some 0, some 0))]
  m'.map fun p =>
    if p.1 = r.date then
      (p.1, (jsAdd p.2.1 (parseInt10 r.visits),
             jsAdd p.2.2 (parseInt10 r.pageviews)))
    else p

/-- The two nested `forEach` loops summing provider rows by date. -/
def mergeResults (rs : List (List FathomResult)) : DatesValues :=
  rs.foldl (fun m ar => ar.foldl dvStep m) []

/-- `historicalResponse.findIndex(h => h.date === date)`:
index of the first bucket with the given date (`none` models `-1`). -/
def findIdxByDate : List Bucket → Ymd → Option Nat
  | [], _ => none
  | b :: t, d =>
    if b.date = d then some 0 else (findIdxByDate t d).map (· + 1)

/-- Replace the element at index `i` (no-op when out of range). -/
def modifyAt {α : Type} : List α → Nat → (α → α) → List α
  | [], _, _ => []
  | a :: t, 0, f => f a :: t
  | a :: t, n + 1, f => a :: modifyAt t n f

/-- One iteration of the write-back `forEach` over `datesValues`:
on a missing date it sends a 500 (the `return` only leaves the
callback, so the iteration continues); otherwise it overwrites the
bucket's `visits`/`pageviews`. -/
def writeBackStep (env : Env) (st : List Bucket × List Rsp)
    (entry : Ymd × (JsNum × JsNum)) : List Bucket × List Rsp :=
  match findIdxByDate st.1 entry.1 with
  | none =>
    let errorId := env.capture
      ("No index for date " ++ formatYmd entry.1 ++ " and username " ++ username)
    (st.1, st.2 ++ [⟨500, .errBody ("Internal server error: " ++ errorId)⟩])
  | some i =>
    (modifyAt st.1 i
      (fun b => { b with visits := entry.2.1, pageviews := entry.2.2 }),
     st.2)

/-- The whole write-back loop, returning the final series and the 500s
it attempted to send. -/
def writeBack (env : Env) (dv : DatesValues) (hist : List Bucket) :
    List Bucket × List Rsp :=
  dv.foldl (writeBackStep env) (hist, [])

/-- The handler.  Returns the ordered list of attempted
`res.status(...).json(...)` sends; the client receives the head.  The
`requester` field of the request is never consulted. -/
def analyticsHistoricalEndpoint (env : Env) (req : Req) : List Rsp :=
  if falsyStr req.dateFrom then [⟨400, .errBody "dateFrom is required"⟩]
  else
    let dateFrom := req.dateFrom.getD ""
    match parseYmd dateFrom with
    | none => [⟨400, .errBody "dateFrom is invalid"⟩]
    | some parsedDateFrom =>
      if falsyStr req.dateGrouping then
        [⟨400, .errBody "dateGrouping is required"⟩]
      else
        let dateGrouping := req.dateGrouping.getD ""
        if dateGrouping ≠ "day" ∧ dateGrouping ≠ "month" then
          [⟨400, .errBody "dateGrouping must be day or month"⟩]
        else
          let historicalResponse := scaffold parsedDateFrom env.now
          if env.profile.isNone ∨ falsyStr env.bucketUrl then
            [⟨500, .errBody ("Internal server error: " ++
              env.capture ("No profile or bucketUrl for " ++ username))⟩]
          else
            let fathomAggregationResult := fetchStage env dateFrom dateGrouping
            let datesValues := mergeResults fathomAggregationResult
            let wb := writeBack env datesValues historicalResponse
            wb.2 ++ [⟨200, .dataBody wb.1⟩]

/-- Running total of one parsed field over the rows of date `d`. -/
def accumField (f : FathomResult → String) (init : JsNum)
    (l : List FathomResult) (d : Ymd) : JsNum :=
  (l.filter fun r => r.date == d).foldl
    (fun a r => jsAdd a (parseInt10 (f r))) init

/-- The 500 response attempted for a date missing from the series. -/
def missingDateRsp (env : Env) (d : Ymd) : Rsp :=
  ⟨500, .errBody ("Internal server error: " ++
    env.capture ("No index for date " ++ formatYmd d ++
      " and username " ++ username))⟩

/-- `x` is a non-negative integer JS number (not `NaN`). -/
def nonnegJs : JsNum → Prop
  | some n => 0 ≤ n
  | none => False

instance (x : JsNum) : Decidable (nonnegJs x) := by
  unfold nonnegJs
  cases x <;> infer_instance

/-- The Date-Range Scaffolder component with the interface of the
surrounding code region: the values in scope are the validated start
date, the requested grouping and the captured `dateTo`; the loop never
reads the grouping. -/
def scaffolderComponent (_dateGrouping : String) (start : Ymd)
    (now : LocalTime) : List Bucket :=
  scaffold start now

/-- A well-formed request used by concrete instantiations. -/
def reqW : Req :=
  ⟨some "2024-01-01", some "day", none⟩

/-- Same query as `reqW` but from a different requester. -/
def reqW2 : Req :=
  ⟨some "2024-01-01", some "day", some "alice.id"⟩

/-- A benign environment: one story, provider data on 2024-01-02. -/
def envW : Env :=
  { now := ⟨⟨2024, 1, 3⟩, 5⟩
    profile := some ()
    bucketUrl := some "https://bucket.example"
    stories := ["story1"]
    aggregate := fun _ _ _ => [⟨⟨2024, 1, 2⟩, "4", "7"⟩]
    capture := fun _ => "eid-1" }

/-- An environment whose provider returns a date outside the
scaffolded range. -/
def envBad : Env :=
  { envW with
    aggregate := fun _ _ _ => [⟨⟨2030, 1, 5⟩, "1", "2"⟩]
    capture := fun _ => "eid-2" }

/-- An environment whose provider returns a negative numeric string. -/
def envNeg : Env :=
  { now := ⟨⟨2024, 1, 2⟩, 0⟩
    profile := some ()
    bucketUrl := some "https://bucket.example"
    stories := []
    aggregate := fun _ _ _ => [⟨⟨2024, 1, 1⟩, "-5", "7"⟩]
    capture := fun _ => "eid-3" }

/-- An environment at exactly midnight of the start day, with a
provider that returns no rows at all. -/
def envEmpty : Env :=
  { now := ⟨⟨2024, 1, 1⟩, 0⟩
    profile := some ()
    bucketUrl := some "https://bucket.example"
    stories := ["story1", "story2"]
    aggregate := fun _ _ _ => []
    capture := fun _ => "eid-4" }

/-! ### Handler lemmas -/

theorem parseYmd_valid {s : String} {d : Ymd} (h : parseYmd s = some d) :
    d.valid := by
  unfold parseYmd at h
  split at h
  · split at h
    · split at h
      · split at h
        · rename_i hcond
          cases h
          exact hcond
        · cases h
      · cases h
    · cases h
  · cases h

theorem parseYmd_ne_empty {s : String} {d : Ymd} (h : parseYmd s = some d) :
    s ≠ "" := by
  intro he
  rw [he, show parseYmd "" = none from rfl] at h
  cases h

/-- Unfolding of the handler along the fully validated path. -/
theorem endpoint_valid_eq (env : Env) (req : Req) {s g : String}
    {start : Ymd}
    (h1 : req.dateFrom = some s)
    (h2 : parseYmd s = some start)
    (h3 : req.dateGrouping = some g)
    (h4 : g = "day" ∨ g = "month")
    (h5 : env.profile.isSome)
    (h6 : ¬ falsyStr env.bucketUrl) :
    analyticsHistoricalEndpoint env req =
      (writeBack env (mergeResults (fetchStage env s g))
          (scaffold start env.now)).2 ++
        [⟨200, .dataBody
          (writeBack env (mergeResults (fetchStage env s g))
            (scaffold start env.now)).1⟩] := by
  have hs : s ≠ "" := parseYmd_ne_empty h2
  have hg : g ≠ "" := by
    rcases h4 with rfl | rfl <;> decide
  have c1 : ¬ falsyStr req.dateFrom := by
    rw [h1]
    simpa [falsyStr] using hs
  have c3 : ¬ falsyStr req.dateGrouping := by
    rw [h3]
    simpa [falsyStr] using hg
  have c4 : ¬ (g ≠ "day" ∧ g ≠ "month") := by
    rcases h4 with rfl | rfl <;> simp
  have c5 : ¬ (env.profile.isNone = true ∨ falsyStr env.bucketUrl) := by
    refine not_or.2 ⟨?_, h6⟩
    obtain ⟨u, hu⟩ := Option.isSome_iff_exists.1 h5
    rw [hu]
    simp
  unfold analyticsHistoricalEndpoint
  rw [if_neg c1, h1]
  simp only [Option.getD_some]
  rw [h2]
  simp only []
  rw [if_neg c3, h3]
  simp only [Option.getD_some]
  rw [if_neg c4, if_neg c5]

/-- The client-visible response (head of the attempted sends) is a
500 whose body embeds a correlation identifier from the reporter. -/
def abortsWithServerError (env : Env) (rsps : List Rsp) : Prop :=
  ∃ msg, rsps.head? =
    some ⟨500, .errBody ("Internal server error: " ++ env.capture msg)⟩

/-- The 200 series has a bucket for `d` and every such bucket still
holds the zero initialization. -/
def keepsZeroBucket (env : Env) (req : Req) (d : Ymd) : Prop :=
  ∃ l, (analyticsHistoricalEndpoint env req).getLast? =
      some ⟨200, .dataBody l⟩ ∧
    d ∈ l.map Bucket.date ∧
    ∀ b ∈ l, b.date = d → b = ⟨d, some 0, some 0⟩

/-- Write-back touches neither dates, nor length, nor order, and any
changed bucket carries the accumulated totals of its date. -/
def writeBackFrame (env : Env) (dv : DatesValues) (hist : List Bucket) :
    Prop :=
  (writeBack env dv hist).1.map Bucket.date = hist.map Bucket.date ∧
  (writeBack env dv hist).1.length = hist.length ∧
  ∀ b ∈ (writeBack env dv hist).1,
    b ∈ hist ∨ ∃ e ∈ dv,
      b.date = e.1 ∧ b.visits = e.2.1 ∧ b.pageviews = e.2.2

/-- The 200 series carries exactly the scaffold's dates in the
scaffold's order. -/
def finalOrderingFromScaffold (env : Env) (req : Req) (start : Ymd) :
    Prop :=
  ∃ l, (analyticsHistoricalEndpoint env req).getLast? =
      some ⟨200, .dataBody l⟩ ∧
    l.map Bucket.date = (scaffold start env.now).map Bucket.date ∧
    l.length = (scaffold start env.now).length

/-! ### Calendar lemmas -/

theorem daysInMonth_pos (y m : Nat) : 1 ≤ daysInMonth y m := by
  unfold daysInMonth
  split_ifs <;> omega

theorem daysInMonth_le (y m : Nat) : daysInMonth y m ≤ 31 := by
  unfold daysInMonth
  split_ifs <;> omega

theorem nextDay_valid {d : Ymd} (h : d.valid) : (nextDay d).valid := by
  obtain ⟨hm1, hm2, hd1, hd2⟩ := h
  unfold nextDay
  split_ifs with h1 h2 <;>
    refine ⟨?_, ?_, ?_, ?_⟩ <;>
    first
      | omega
      | exact daysInMonth_pos _ _
      | (dsimp only; omega)

theorem valid_day_le {d : Ymd} (h : d.valid) : d.day ≤ 31 :=
  le_trans h.2.2.2 (daysInMonth_le _ _)

theorem lt_iff_ord {a b : Ymd} (ha : a.valid) (hb : b.valid) :
    a.lt b ↔ a.ord < b.ord := by
  have ha31 := valid_day_le ha
  have hb31 := valid_day_le hb
  obtain ⟨ham1, ham2, had1, _⟩ := ha
  obtain ⟨hbm1, hbm2, hbd1, _⟩ := hb
  unfold Ymd.lt Ymd.ord
  omega

theorem lt_nextDay (d : Ymd) : d.lt (nextDay d) := by
  unfold nextDay
  split_ifs with h1 h2 <;> dsimp only [Ymd.lt] <;> omega

theorem ord_lt_nextDay {d : Ymd} (h : d.valid) : d.ord < (nextDay d).ord :=
  (lt_iff_ord h (nextDay_valid h)).1 (lt_nextDay d)

theorem ymd_lt_trans {a b c : Ymd} (h1 : a.lt b) (h2 : b.lt c) : a.lt c := by
  unfold Ymd.lt at *
  omega

theorem ymd_lt_irrefl {a : Ymd} (h : a.lt a) : False := by
  unfold Ymd.lt at h
  omega

theorem ymd_lt_of_lt_of_le {a b c : Ymd} (h1 : a.lt b) (h2 : b.le c) :
    a.lt c := by
  rcases h2 with rfl | h2
  · exact h1
  · exact ymd_lt_trans h1 h2

theorem ymd_lt_of_le_of_lt {a b c : Ymd} (h1 : a.le b) (h2 : b.lt c) :
    a.lt c := by
  rcases h1 with rfl | h1
  · exact h2
  · exact ymd_lt_trans h1 h2

theorem ymd_le_refl (a : Ymd) : a.le a := Or.inl rfl

theorem ymd_le_iff {a b : Ymd} :
    a.le b ↔
      (a.year = b.year ∧ a.month = b.month ∧ a.day = b.day) ∨ a.lt b := by
  obtain ⟨ay, am, ad⟩ := a
  obtain ⟨by0, bm, bd⟩ := b
  simp [Ymd.le, Ymd.mk.injEq]

/-- `nextDay d` is the least valid day strictly after `d`. -/
theorem nextDay_le_of_lt {a b : Ymd} (ha : a.valid) (hb : b.valid)
    (h : a.lt b) : (nextDay a).le b := by
  have hda := daysInMonth_le a.year a.month
  obtain ⟨ham1, ham2, had1, had2⟩ := ha
  obtain ⟨hbm1, hbm2, hbd1, hbd2⟩ := hb
  rw [ymd_le_iff]
  rcases h with hy | ⟨hy, hm | ⟨hm, hd⟩⟩
  · unfold nextDay
    split_ifs <;> dsimp only [Ymd.lt] <;> omega
  · unfold nextDay
    split_ifs <;> dsimp only [Ymd.lt] <;> omega
  · obtain ⟨ay, am, ad⟩ := a
    obtain ⟨by0, bm, bd⟩ := b
    dsimp only at hy hm hd hda had1 had2 hbd1 hbd2
    subst hy
    subst hm
    unfold nextDay
    split_ifs with h1 h2 <;> (dsimp only [Ymd.lt] at *; omega)

theorem ord_le_of_le {a b : Ymd} (ha : a.valid) (hb : b.valid)
    (h : a.le b) : a.ord ≤ b.ord := by
  rcases h with rfl | h
  · exact le_refl _
  · exact le_of_lt ((lt_iff_ord ha hb).1 h)

/-- A day whose midnight is before `now` is no later than `now`'s day. -/
theorem ord_le_of_beforeNow {d : Ymd} {now : LocalTime} (hd : d.valid)
    (hn : now.date.valid) (h : beforeNow d now) : d.ord ≤ now.date.ord := by
  rcases h with h | ⟨rfl, _⟩
  · exact le_of_lt ((lt_iff_ord hd hn).1 h)
  · exact le_refl _

/-! ### Scaffold lemmas -/

theorem scaffoldAux_succ (fuel : Nat) (cur : Ymd) (now : LocalTime) :
    scaffoldAux (fuel + 1) cur now =
      if beforeNow cur now then
        ⟨cur, some 0, some 0⟩ :: scaffoldAux fuel (nextDay cur) now
      else [] := rfl

/-- Every emitted bucket is a zero bucket, unconditionally. -/
theorem scaffoldAux_zeros {fuel : Nat} {cur : Ymd} {now : LocalTime}
    {b : Bucket} (hb : b ∈ scaffoldAux fuel cur now) :
    b = ⟨b.date, some 0, some 0⟩ := by
  induction fuel generalizing cur with
  | zero => simp [scaffoldAux] at hb
  | succ fuel ih =>
    rw [scaffoldAux_succ] at hb
    by_cases hg : beforeNow cur now
    · rw [if_pos hg] at hb
      rcases List.mem_cons.1 hb with rfl | hb
      · rfl
      · exact ih hb
    · rw [if_neg hg] at hb
      simp at hb

/-- Shape of any member of the scaffold loop started at a valid day. -/
theorem scaffoldAux_mem {fuel : Nat} {cur : Ymd} {now : LocalTime}
    (hc : cur.valid) {b : Bucket} (hb : b ∈ scaffoldAux fuel cur now) :
    b.date.valid ∧ b = ⟨b.date, some 0, some 0⟩ ∧ cur.le b.date ∧
      beforeNow b.date now := by
  induction fuel generalizing cur with
  | zero => simp [scaffoldAux] at hb
  | succ fuel ih =>
    rw [scaffoldAux_succ] at hb
    by_cases hg : beforeNow cur now
    · rw [if_pos hg] at hb
      rcases List.mem_cons.1 hb with rfl | hb
      · exact ⟨hc, rfl, ymd_le_refl _, hg⟩
      · obtain ⟨h1, h2, h3, h4⟩ := ih (nextDay_valid hc) hb
        exact ⟨h1, h2, Or.inr (ymd_lt_of_lt_of_le (lt_nextDay cur) h3), h4⟩
    · rw [if_neg hg] at hb
      simp at hb

/-- With enough fuel, every day of `[cur, now)` is emitted. -/
theorem scaffoldAux_mem_of {fuel : Nat} {cur d : Ymd} {now : LocalTime}
    (hc : cur.valid) (hd : d.valid) (hn : now.date.valid)
    (hfuel : now.date.ord + 1 - cur.ord ≤ fuel)
    (hle : cur.le d) (hbn : beforeNow d now) :
    (⟨d, some 0, some 0⟩ : Bucket) ∈ scaffoldAux fuel cur now := by
  induction fuel generalizing cur with
  | zero =>
    exfalso
    have h1 : cur.ord ≤ d.ord := ord_le_of_le hc hd hle
    have h2 : d.ord ≤ now.date.ord := ord_le_of_beforeNow hd hn hbn
    omega
  | succ fuel ih =>
    have hg : beforeNow cur now := by
      rcases hle with rfl | hlt
      · exact hbn
      · rcases hbn with hbn | ⟨rfl, _⟩
        · exact Or.inl (ymd_lt_trans hlt hbn)
        · exact Or.inl hlt
    rw [scaffoldAux_succ, if_pos hg]
    rcases hle with rfl | hlt
    · exact List.mem_cons_self _ _
    · refine List.mem_cons_of_mem _
        (ih (nextDay_valid hc) ?_ (nextDay_le_of_lt hc hd hlt))
      have h3 := ord_lt_nextDay hc
      omega

/-- The emitted dates are strictly ascending (hence duplicate-free). -/
theorem scaffoldAux_pairwise {fuel : Nat} {cur : Ymd} {now : LocalTime}
    (hc : cur.valid) :
    ((scaffoldAux fuel cur now).map Bucket.date).Pairwise Ymd.lt := by
  induction fuel generalizing cur with
  | zero => simp [scaffoldAux]
  | succ fuel ih =>
    rw [scaffoldAux_succ]
    by_cases hg : beforeNow cur now
    · rw [if_pos hg]
      simp only [List.map_cons]
      refine List.Pairwise.cons ?_ (ih (nextDay_valid hc))
      intro d hdm
      obtain ⟨b, hb, rfl⟩ := List.mem_map.1 hdm
      have h3 := (scaffoldAux_mem (nextDay_valid hc) hb).2.2.1
      exact ymd_lt_of_lt_of_le (lt_nextDay cur) h3
    · rw [if_neg hg]
      simp

theorem scaffoldAux_nil_or_cons (fuel : Nat) (cur : Ymd) (now : LocalTime) :
    scaffoldAux fuel cur now = [] ∨
      ∃ t, scaffoldAux fuel cur now = ⟨cur, some 0, some 0⟩ :: t := by
  cases fuel with
  | zero => exact Or.inl rfl
  | succ fuel =>
    rw [scaffoldAux_succ]
    by_cases hg : beforeNow cur now
    · exact Or.inr ⟨_, if_pos hg⟩
    · exact Or.inl (if_neg hg)

/-- Consecutive buckets are consecutive calendar days: no gaps. -/
theorem scaffoldAux_chain (fuel : Nat) (cur : Ymd) (now : LocalTime) :
    List.Chain' (fun a b : Bucket => b.date = nextDay a.date)
      (scaffoldAux fuel cur now) := by
  induction fuel generalizing cur with
  | zero => simp [scaffoldAux]
  | succ fuel ih =>
    rw [scaffoldAux_succ]
    by_cases hg : beforeNow cur now
    · rw [if_pos hg]
      rcases scaffoldAux_nil_or_cons fuel (nextDay cur) now with h | ⟨t, h⟩
      · rw [h]
        exact List.chain'_singleton _
      · rw [h]
        exact List.Chain'.cons rfl (h ▸ ih (nextDay cur))
    · rw [if_neg hg]
      exact List.chain'_nil

/-! ### Merge lemmas -/

theorem dvFind_append {m : DatesValues} {c : Ymd} {x : JsNum × JsNum}
    (d : Ymd) :
    dvFind (m ++ [(c, x)]) d =
      (dvFind m d).or (if c = d then some x else none) := by
  induction m with
  | nil => simp [dvFind]
  | cons p t ih => by_cases hp : p.1 = d <;> simp [dvFind, hp, ih]

theorem dvFind_update (m : DatesValues) (r : FathomResult) (d : Ymd) :
    dvFind (m.map fun p =>
        if p.1 = r.date then
          (p.1, (jsAdd p.2.1 (parseInt10 r.visits),
                 jsAdd p.2.2 (parseInt10 r.pageviews)))
        else p) d =
      if r.date = d then
        (dvFind m d).map fun vp =>
          (jsAdd vp.1 (parseInt10 r.visits),
           jsAdd vp.2 (parseInt10 r.pageviews))
      else dvFind m d := by
  induction m with
  | nil => by_cases hc : r.date = d <;> simp [dvFind, hc]
  | cons p t ih =>
    by_cases hp : p.1 = r.date <;> by_cases hd : p.1 = d
    · have hc : r.date = d := hp ▸ hd
      simp [dvFind, hp, hd, hc]
    · have hc : ¬ r.date = d := fun h => hd (hp.trans h)
      simp [dvFind, hp, hd, hc, ih]
    · have hc : ¬ r.date = d := fun h => hp (hd.trans h.symm)
      have hc2 : ¬ d = r.date := fun h => hc h.symm
      simp [dvFind, hp, hd, hc, hc2]
    · simp [dvFind, hp, hd, ih]

theorem dvFind_dvStep (m : DatesValues) (r : FathomResult) (d : Ymd) :
    dvFind (dvStep m r) d =
      if r.date = d then
        some (jsAdd (((dvFind m d).getD (some 0, some 0)).1)
                (parseInt10 r.visits),
              jsAdd (((dvFind m d).getD (some 0, some 0)).2)
                (parseInt10 r.pageviews))
      else dvFind m d := by
  unfold dvStep
  by_cases hs : (dvFind m r.date).isSome
  · rw [if_pos hs, dvFind_update]
    by_cases hd : r.date = d
    · subst hd
      rw [if_pos rfl, if_pos rfl]
      obtain ⟨vp, hvp⟩ := Option.isSome_iff_exists.1 hs
      rw [hvp]
      rfl
    · rw [if_neg hd, if_neg hd]
  · rw [if_neg hs, dvFind_update]
    have hnone : dvFind m r.date = none :=
      Option.not_isSome_iff_eq_none.1 hs
    by_cases hd : r.date = d
    · subst hd
      rw [if_pos rfl, if_pos rfl, dvFind_append, hnone]
      simp
    · rw [if_neg hd, if_neg hd, dvFind_append, if_neg hd]
      simp

theorem dvFind_foldl_some {m : DatesValues} {d : Ymd} {v p : JsNum}
    (l : List FathomResult) (h : dvFind m d = some (v, p)) :
    dvFind (l.foldl dvStep m) d =
      some (accumField FathomResult.visits v l d,
            accumField FathomResult.pageviews p l d) := by
  induction l generalizing m v p with
  | nil => simpa [accumField] using h
  | cons r t ih =>
    simp only [List.foldl_cons]
    by_cases hd : r.date = d
    · have h2 : dvFind (dvStep m r) d =
          some (jsAdd v (parseInt10 r.visits),
                jsAdd p (parseInt10 r.pageviews)) := by
        rw [dvFind_dvStep, if_pos hd, h]
        rfl
      rw [ih h2]
      simp [accumField, List.filter_cons, hd]
    · have h2 : dvFind (dvStep m r) d = some (v, p) := by
        rw [dvFind_dvStep, if_neg hd]
        exact h
      rw [ih h2]
      simp [accumField, List.filter_cons, hd]

theorem dvFind_foldl_none_not_mem {m : DatesValues} {d : Ymd}
    (l : List FathomResult) (h : dvFind m d = none)
    (hm : ∀ r ∈ l, r.date ≠ d) :
    dvFind (l.foldl dvStep m) d = none := by
  induction l generalizing m with
  | nil => exact h
  | cons r t ih =>
    simp only [List.foldl_cons]
    have h2 : dvFind (dvStep m r) d = none := by
      rw [dvFind_dvStep, if_neg (hm r (List.mem_cons_self r t))]
      exact h
    exact ih h2 fun r2 hr2 => hm r2 (List.mem_cons_of_mem r hr2)

theorem dvFind_foldl_none_mem {m : DatesValues} {d : Ymd}
    (l : List FathomResult) (h : dvFind m d = none)
    (hm : ∃ r ∈ l, r.date = d) :
    dvFind (l.foldl dvStep m) d =
      some (accumField FathomResult.visits (some 0) l d,
            accumField FathomResult.pageviews (some 0) l d) := by
  induction l generalizing m with
  | nil => simp at hm
  | cons r t ih =>
    simp only [List.foldl_cons]
    by_cases hd : r.date = d
    · have h2 : dvFind (dvStep m r) d =
          some (jsAdd (some 0) (parseInt10 r.visits),
                jsAdd (some 0) (parseInt10 r.pageviews)) := by
        rw [dvFind_dvStep, if_pos hd, h]
        rfl
      rw [dvFind_foldl_some t h2]
      simp [accumField, List.filter_cons, hd]
    · rcases hm with ⟨r0, hr0, hr0d⟩
      have hr0t : r0 ∈ t := by
        rcases List.mem_cons.1 hr0 with rfl | h2
        · exact absurd hr0d hd
        · exact h2
      have h2 : dvFind (dvStep m r) d = none := by
        rw [dvFind_dvStep, if_neg hd]
        exact h
      rw [ih h2 ⟨r0, hr0t, hr0d⟩]
      simp [accumField, List.filter_cons, hd]

/-- The two nested loops are the single loop over the concatenation. -/
theorem mergeResults_eq_flatten (rs : List (List FathomResult)) :
    mergeResults rs = rs.flatten.foldl dvStep [] :=
  (List.foldl_flatten dvStep [] rs).symm

theorem dvFind_isSome_iff (m : DatesValues) (d : Ymd) :
    (dvFind m d).isSome ↔ d ∈ m.map Prod.fst := by
  induction m with
  | nil => simp [dvFind]
  | cons p t ih =>
    by_cases hp : p.1 = d
    · simp [dvFind, hp]
    · have hp2 : ¬ d = p.1 := fun h => hp h.symm
      simp [dvFind, hp, hp2, ih]

theorem dvStep_keys (m : DatesValues) (r : FathomResult) :
    (dvStep m r).map Prod.fst =
      if (dvFind m r.date).isSome then m.map Prod.fst
      else m.map Prod.fst ++ [r.date] := by
  unfold dvStep
  have hfst : ∀ ms : DatesValues,
      (ms.map fun p =>
        if p.1 = r.date then
          (p.1, (jsAdd p.2.1 (parseInt10 r.visits),
                 jsAdd p.2.2 (parseInt10 r.pageviews)))
        else p).map Prod.fst = ms.map Prod.fst := by
    intro ms
    rw [List.map_map]
    refine List.map_congr_left fun p _ => ?_
    by_cases hp : p.1 = r.date <;> simp [hp]
  by_cases hs : (dvFind m r.date).isSome
  · rw [if_pos hs, if_pos hs, hfst]
  · rw [if_neg hs, if_neg hs, hfst, List.map_append]
    rfl

theorem foldl_dvStep_keys_nodup (l : List FathomResult) (m : DatesValues)
    (h : (m.map Prod.fst).Nodup) :
    ((l.foldl dvStep m).map Prod.fst).Nodup := by
  induction l generalizing m with
  | nil => exact h
  | cons r t ih =>
    simp only [List.foldl_cons]
    refine ih _ ?_
    rw [dvStep_keys]
    by_cases hs : (dvFind m r.date).isSome
    · rwa [if_pos hs]
    · rw [if_neg hs]
      have hnm : r.date ∉ m.map Prod.fst := fun hmem =>
        hs ((dvFind_isSome_iff m r.date).2 hmem)
      simp [List.nodup_append, h, hnm]

theorem mergeResults_keys_nodup (rs : List (List FathomResult)) :
    ((mergeResults rs).map Prod.fst).Nodup := by
  rw [mergeResults_eq_flatten]
  exact foldl_dvStep_keys_nodup _ [] (by simp)

theorem dvFind_of_mem_nodup {m : DatesValues}
    (hnd : (m.map Prod.fst).Nodup) {e : Ymd × (JsNum × JsNum)}
    (he : e ∈ m) : dvFind m e.1 = some e.2 := by
  induction m with
  | nil => simp at he
  | cons p t ih =>
    rcases List.mem_cons.1 he with rfl | he2
    · simp [dvFind]
    · have hne : p.1 ≠ e.1 := by
        intro hpe
        have : e.1 ∈ t.map Prod.fst := List.mem_map.2 ⟨e, he2, rfl⟩
        rw [← hpe] at this
        exact (List.nodup_cons.1 hnd).1 this
      rw [dvFind, if_neg hne]
      exact ih (List.nodup_cons.1 hnd).2 he2

/-- A date has an accumulator entry iff some provider row mentions it. -/
theorem mergeResults_isSome_iff (rs : List (List FathomResult)) (d : Ymd) :
    (dvFind (mergeResults rs) d).isSome ↔
      d ∈ rs.flatten.map FathomResult.date := by
  rw [mergeResults_eq_flatten]
  constructor
  · intro h
    by_contra hmem
    have hne : ∀ r ∈ rs.flatten, r.date ≠ d := by
      intro r hr hrd
      exact hmem (List.mem_map.2 ⟨r, hr, hrd⟩)
    rw [dvFind_foldl_none_not_mem (m := []) rs.flatten rfl hne] at h
    simp at h
  · intro h
    obtain ⟨r, hr, hrd⟩ := List.mem_map.1 h
    rw [dvFind_foldl_none_mem (m := []) rs.flatten rfl ⟨r, hr, hrd⟩]
    rfl

/-- The accumulated totals of every entry: each is the running sum,
from zero, of the parsed fields of exactly the rows of its date. -/
theorem mergeResults_mem_value {rs : List (List FathomResult)}
    {e : Ymd × (JsNum × JsNum)} (he : e ∈ mergeResults rs) :
    e.2 = (accumField FathomResult.visits (some 0) rs.flatten e.1,
           accumField FathomResult.pageviews (some 0) rs.flatten e.1) := by
  have h1 : dvFind (mergeResults rs) e.1 = some e.2 :=
    dvFind_of_mem_nodup (mergeResults_keys_nodup rs) he
  have h2 : e.1 ∈ rs.flatten.map FathomResult.date := by
    rw [← mergeResults_isSome_iff, h1]
    rfl
  obtain ⟨r, hr, hrd⟩ := List.mem_map.1 h2
  have h3 := dvFind_foldl_none_mem rs.flatten (m := []) rfl ⟨r, hr, hrd⟩
  rw [← mergeResults_eq_flatten] at h3
  rw [h1] at h3
  exact Option.some_injective _ h3

/-! ### Write-back lemmas -/

theorem findIdxByDate_none_iff (l : List Bucket) (d : Ymd) :
    findIdxByDate l d = none ↔ d ∉ l.map Bucket.date := by
  induction l with
  | nil => simp [findIdxByDate]
  | cons b t ih =>
    by_cases hb : b.date = d
    · simp [findIdxByDate, hb]
    · have hb2 : ¬ d = b.date := fun h => hb h.symm
      simp [findIdxByDate, hb, hb2, ih]

theorem modifyAt_map_date (l : List Bucket) (i : Nat) (f : Bucket → Bucket)
    (hf : ∀ b, (f b).date = b.date) :
    (modifyAt l i f).map Bucket.date = l.map Bucket.date := by
  induction l generalizing i with
  | nil => rfl
  | cons b t ih =>
    cases i with
    | zero => simp [modifyAt, hf]
    | succ j => simp [modifyAt, ih]

theorem writeBackStep_none (env : Env) (st : List Bucket × List Rsp)
    (e : Ymd × (JsNum × JsNum)) (hf : findIdxByDate st.1 e.1 = none) :
    writeBackStep env st e = (st.1, st.2 ++ [missingDateRsp env e.1]) := by
  unfold writeBackStep
  rw [hf]
  rfl

theorem writeBackStep_some (env : Env) (st : List Bucket × List Rsp)
    (e : Ymd × (JsNum × JsNum)) (i : Nat)
    (hf : findIdxByDate st.1 e.1 = some i) :
    writeBackStep env st e =
      (modifyAt st.1 i
        (fun b => { b with visits := e.2.1, pageviews := e.2.2 }), st.2) := by
  unfold writeBackStep
  rw [hf]

theorem mem_modifyAt_of_findIdx {l : List Bucket} {d : Ymd} {i : Nat}
    {f : Bucket → Bucket} (hfind : findIdxByDate l d = some i) {b : Bucket}
    (hb : b ∈ modifyAt l i f) :
    b ∈ l ∨ ∃ a ∈ l, a.date = d ∧ b = f a := by
  induction l generalizing i with
  | nil => simp [modifyAt] at hb
  | cons c t ih =>
    by_cases hc : c.date = d
    · rw [findIdxByDate, if_pos hc] at hfind
      obtain rfl : (0 : Nat) = i := Option.some_injective _ hfind
      dsimp [modifyAt] at hb
      rcases List.mem_cons.1 hb with rfl | hb2
      · exact Or.inr ⟨c, List.mem_cons_self c t, hc, rfl⟩
      · exact Or.inl (List.mem_cons_of_mem c hb2)
    · rw [findIdxByDate, if_neg hc] at hfind
      obtain ⟨j, hj, hji⟩ := Option.map_eq_some'.1 hfind
      subst hji
      dsimp [modifyAt] at hb
      rcases List.mem_cons.1 hb with rfl | hb2
      · exact Or.inl (List.mem_cons_self b t)
      · rcases ih hj hb2 with h | ⟨a, ha, had, hba⟩
        · exact Or.inl (List.mem_cons_of_mem c h)
        · exact Or.inr ⟨a, List.mem_cons_of_mem c ha, had, hba⟩

theorem writeBack_fst_map_date (env : Env) (dv : DatesValues)
    (hist : List Bucket) (rsps : List Rsp) :
    ((dv.foldl (writeBackStep env) (hist, rsps)).1).map Bucket.date =
      hist.map Bucket.date := by
  induction dv generalizing hist rsps with
  | nil => rfl
  | cons e t ih =>
    simp only [List.foldl_cons]
    cases hf : findIdxByDate hist e.1 with
    | none =>
      rw [writeBackStep_none env (hist, rsps) e hf]
      exact ih hist _
    | some i =>
      rw [writeBackStep_some env (hist, rsps) e i hf]
      rw [ih]
      exact modifyAt_map_date hist i _ fun b => rfl

theorem writeBack_snd (env : Env) (dv : DatesValues) (hist : List Bucket)
    (rsps : List Rsp) :
    (dv.foldl (writeBackStep env) (hist, rsps)).2 =
      rsps ++ (dv.filter fun e =>
          decide (e.1 ∉ hist.map Bucket.date)).map
        (fun e => missingDateRsp env e.1) := by
  induction dv generalizing hist rsps with
  | nil => simp
  | cons e t ih =>
    simp only [List.foldl_cons]
    cases hf : findIdxByDate hist e.1 with
    | none =>
      rw [writeBackStep_none env (hist, rsps) e hf]
      rw [ih]
      have hmem : e.1 ∉ hist.map Bucket.date :=
        (findIdxByDate_none_iff hist e.1).1 hf
      have hc : decide (e.1 ∉ hist.map Bucket.date) = true :=
        decide_eq_true hmem
      rw [List.filter_cons, hc]
      simp
    | some i =>
      rw [writeBackStep_some env (hist, rsps) e i hf]
      rw [ih]
      have hmd : (modifyAt hist i fun b =>
            { b with visits := e.2.1, pageviews := e.2.2 }).map Bucket.date =
          hist.map Bucket.date :=
        modifyAt_map_date hist i _ fun b => rfl
      have hmem : ¬ e.1 ∉ hist.map Bucket.date := by
        intro hn
        rw [← findIdxByDate_none_iff hist e.1] at hn
        rw [hf] at hn
        cases hn
      simp only [hmd]
      have hc : decide (e.1 ∉ hist.map Bucket.date) = false :=
        decide_eq_false hmem
      rw [List.filter_cons, hc]
      simp

theorem writeBack_fst_mem (env : Env) (dv : DatesValues)
    (hist : List Bucket) (rsps : List Rsp) {b : Bucket}
    (hb : b ∈ (dv.foldl (writeBackStep env) (hist, rsps)).1) :
    b ∈ hist ∨ ∃ e ∈ dv,
      b.date = e.1 ∧ b.visits = e.2.1 ∧ b.pageviews = e.2.2 := by
  induction dv generalizing hist rsps with
  | nil => exact Or.inl hb
  | cons e t ih =>
    simp only [List.foldl_cons] at hb
    cases hf : findIdxByDate hist e.1 with
    | none =>
      rw [writeBackStep_none env (hist, rsps) e hf] at hb
      rcases ih _ _ hb with h | ⟨e2, he2, h2⟩
      · exact Or.inl h
      · exact Or.inr ⟨e2, List.mem_cons_of_mem e he2, h2⟩
    | some i =>
      rw [writeBackStep_some env (hist, rsps) e i hf] at hb
      rcases ih _ _ hb with h | ⟨e2, he2, h2⟩
      · rcases mem_modifyAt_of_findIdx hf h with h3 | ⟨a, _, had, rfl⟩
        · exact Or.inl h3
        · exact Or.inr ⟨e, List.mem_cons_self e t, had, rfl, rfl⟩
      · exact Or.inr ⟨e2, List.mem_cons_of_mem e he2, h2⟩

theorem endpoint_required_eq (env : Env) (req : Req)
    (c1 : falsyStr req.dateFrom) :
    analyticsHistoricalEndpoint env req =
      [⟨400, .errBody "dateFrom is required"⟩] := by
  unfold analyticsHistoricalEndpoint
  rw [if_pos c1]

theorem endpoint_invalid_eq (env : Env) (req : Req) {s : String}
    (h1 : req.dateFrom = some s) (hne : s ≠ "") (h2 : parseYmd s = none) :
    analyticsHistoricalEndpoint env req =
      [⟨400, .errBody "dateFrom is invalid"⟩] := by
  have c1 : ¬ falsyStr req.dateFrom := by
    rw [h1]
    simpa [falsyStr] using hne
  unfold analyticsHistoricalEndpoint
  rw [if_neg c1, h1]
  simp only [Option.getD_some]
  rw [h2]

theorem endpoint_grouping_required_eq (env : Env) (req : Req)
    {s : String} {start : Ymd}
    (h1 : req.dateFrom = some s) (h2 : parseYmd s = some start)
    (c3 : falsyStr req.dateGrouping) :
    analyticsHistoricalEndpoint env req =
      [⟨400, .errBody "dateGrouping is required"⟩] := by
  have c1 : ¬ falsyStr req.dateFrom := by
    rw [h1]
    simpa [falsyStr] using parseYmd_ne_empty h2
  unfold analyticsHistoricalEndpoint
  rw [if_neg c1, h1]
  simp only [Option.getD_some]
  rw [h2]
  simp only []
  rw [if_pos c3]

theorem endpoint_grouping_bad_eq (env : Env) (req : Req)
    {s g : String} {start : Ymd}
    (h1 : req.dateFrom = some s) (h2 : parseYmd s = some start)
    (h3 : req.dateGrouping = some g) (hg0 : g ≠ "")
    (hgd : g ≠ "day") (hgm : g ≠ "month") :
    analyticsHistoricalEndpoint env req =
      [⟨400, .errBody "dateGrouping must be day or month"⟩] := by
  have c1 : ¬ falsyStr req.dateFrom := by
    rw [h1]
    simpa [falsyStr] using parseYmd_ne_empty h2
  have c3 : ¬ falsyStr req.dateGrouping := by
    rw [h3]
    simpa [falsyStr] using hg0
  unfold analyticsHistoricalEndpoint
  rw [if_neg c1, h1]
  simp only [Option.getD_some]
  rw [h2]
  simp only []
  rw [if_neg c3, h3]
  simp only [Option.getD_some]
  rw [if_pos ⟨hgd, hgm⟩]

theorem endpoint_profile_eq (env : Env) (req : Req)
    {s g : String} {start : Ymd}
    (h1 : req.dateFrom = some s) (h2 : parseYmd s = some start)
    (h3 : req.dateGrouping = some g) (h4 : g = "day" ∨ g = "month")
    (c5 : env.profile.isNone = true ∨ falsyStr env.bucketUrl) :
    analyticsHistoricalEndpoint env req =
      [⟨500, .errBody ("Internal server error: " ++
        env.capture ("No profile or bucketUrl for " ++ username))⟩] := by
  have c1 : ¬ falsyStr req.dateFrom := by
    rw [h1]
    simpa [falsyStr] using parseYmd_ne_empty h2
  have hg : g ≠ "" := by
    rcases h4 with rfl | rfl <;> decide
  have c3 : ¬ falsyStr req.dateGrouping := by
    rw [h3]
    simpa [falsyStr] using hg
  have c4 : ¬ (g ≠ "day" ∧ g ≠ "month") := by
    rcases h4 with rfl | rfl <;> simp
  unfold analyticsHistoricalEndpoint
  rw [if_neg c1, h1]
  simp only [Option.getD_some]
  rw [h2]
  simp only []
  rw [if_neg c3, h3]
  simp only [Option.getD_some]
  rw [if_neg c4, if_pos c5]

theorem jsAdd_nonneg {a b : JsNum} (ha : nonnegJs a) (hb : nonnegJs b) :
    nonnegJs (jsAdd a b) := by
  cases a with
  | none => exact ha.elim
  | some x =>
    cases b with
    | none => exact hb.elim
    | some y =>
      simp only [nonnegJs, jsAdd] at *
      omega

theorem accumField_nonneg {f : FathomResult → String} {init : JsNum}
    {l : List FathomResult} {d : Ymd}
    (hinit : nonnegJs init)
    (h : ∀ r ∈ l, nonnegJs (parseInt10 (f r))) :
    nonnegJs (accumField f init l d) := by
  induction l generalizing init with
  | nil => simpa [accumField] using hinit
  | cons r t ih =>
    unfold accumField
    rw [List.filter_cons]
    by_cases hr : (r.date == d) = true
    · rw [if_pos hr]
      simp only [List.foldl_cons]
      exact ih (jsAdd_nonneg hinit (h r (List.mem_cons_self r t)))
        fun r2 hr2 => h r2 (List.mem_cons_of_mem r hr2)
    · rw [if_neg hr]
      exact ih hinit fun r2 hr2 => h r2 (List.mem_cons_of_mem r hr2)

/-! ### Claims -/

/-- C2: for every valid `dateFrom` and any grouping in day/month, with
`now` captured once, the scaffolder emits exactly one zero bucket per
calendar day of `[dateFrom, now)`, strictly ascending, without
duplicates or gaps, and the sequence does not depend on the grouping
(the loop scaffolds at day resolution regardless). -/
theorem claim2_scaffold_correct (start : Ymd) (now : LocalTime)
    (hs : start.valid) (hn : now.date.valid) :
    (∀ g : String, g = "day" ∨ g = "month" →
      scaffolderComponent g start now = scaffold start now)
  ∧ (∀ b ∈ scaffold start now, b.visits = some 0 ∧ b.pageviews = some 0)
  ∧ List.Chain' (fun a b : Bucket => b.date = nextDay a.date)
      (scaffold start now)
  ∧ ((scaffold start now).map Bucket.date).Pairwise Ymd.lt
  ∧ (∀ d : Ymd, d.valid →
      ((⟨d, some 0, some 0⟩ : Bucket) ∈ scaffold start now ↔
        start.le d ∧ beforeNow d now)) := by
  refine ⟨fun g _ => rfl, ?_, scaffoldAux_chain _ _ _,
    scaffoldAux_pairwise hs, ?_⟩
  · intro b hb
    have h := scaffoldAux_zeros hb
    exact ⟨congrArg Bucket.visits h, congrArg Bucket.pageviews h⟩
  · intro d hd
    constructor
    · intro hmem
      have h := scaffoldAux_mem hs hmem
      exact ⟨h.2.2.1, h.2.2.2⟩
    · rintro ⟨hle, hbn⟩
      exact scaffoldAux_mem_of hs hd hn (le_refl _) hle hbn

theorem claim2_witness :
    Ymd.valid ⟨2024, 1, 31⟩ ∧ Ymd.valid ⟨2024, 2, 2⟩ ∧
    ((⟨⟨2024, 2, 1⟩, some 0, some 0⟩ : Bucket) ∈
        scaffold ⟨2024, 1, 31⟩ ⟨⟨2024, 2, 2⟩, 30⟩ ↔
      Ymd.le ⟨2024, 1, 31⟩ ⟨2024, 2, 1⟩ ∧
        beforeNow ⟨2024, 2, 1⟩ ⟨⟨2024, 2, 2⟩, 30⟩) :=
  ⟨by decide, by decide,
    (claim2_scaffold_correct ⟨2024, 1, 31⟩ ⟨⟨2024, 2, 2⟩, 30⟩
      (by decide) (by decide)).2.2.2.2 ⟨2024, 2, 1⟩ (by decide)⟩

/-- C9: the scaffolder is a pure function of `(dateFrom, now)`: two
runs with the same start date and the same frozen `now` produce the
identical sequence.  The only run-time input of the source loop,
`new Date()`, is the explicit `now` parameter of the embedding. -/
theorem claim9_scaffold_deterministic (g : String) {start1 start2 : Ymd}
    {now1 now2 : LocalTime}
    (hstart : start1 = start2) (hnow : now1 = now2) :
    scaffolderComponent g start1 now1 = scaffolderComponent g start2 now2 := by
  rw [hstart, hnow]

theorem claim9_witness :
    scaffolderComponent "day" ⟨2024, 1, 1⟩ ⟨⟨2024, 1, 3⟩, 5⟩ =
      scaffolderComponent "day" ⟨2024, 1, 1⟩ ⟨⟨2024, 1, 3⟩, 5⟩ :=
  claim9_scaffold_deterministic "day" rfl rfl

/-- C3: for every date mentioned by any per-path result, the merge
accumulates, starting from zero, the parsed `visits` and `pageviews`
of exactly the rows carrying that date, over all per-path results. -/
theorem claim3_merge_sums (rs : List (List FathomResult)) (d : Ymd)
    (h : d ∈ rs.flatten.map FathomResult.date) :
    dvFind (mergeResults rs) d =
      some (accumField FathomResult.visits (some 0) rs.flatten d,
            accumField FathomResult.pageviews (some 0) rs.flatten d) := by
  obtain ⟨r, hr, hrd⟩ := List.mem_map.1 h
  rw [mergeResults_eq_flatten]
  exact dvFind_foldl_none_mem (m := []) rs.flatten rfl ⟨r, hr, hrd⟩

theorem claim3_witness :
    (⟨2024, 1, 1⟩ : Ymd) ∈
        ([[⟨⟨2024, 1, 1⟩, "3", "5"⟩], [⟨⟨2024, 1, 1⟩, "2", "1"⟩]] :
          List (List FathomResult)).flatten.map FathomResult.date ∧
    dvFind (mergeResults
        [[⟨⟨2024, 1, 1⟩, "3", "5"⟩], [⟨⟨2024, 1, 1⟩, "2", "1"⟩]])
      ⟨2024, 1, 1⟩ = some (some 5, some 6) :=
  ⟨by decide,
    (claim3_merge_sums
      [[⟨⟨2024, 1, 1⟩, "3", "5"⟩], [⟨⟨2024, 1, 1⟩, "2", "1"⟩]]
      ⟨2024, 1, 1⟩ (by decide)).trans (by decide)⟩

/-- C4: validation runs in source order, short-circuits on the first
failure, and reports each failure as a 400 with the exact message:
missing `dateFrom`, unparsable `dateFrom`, missing `dateGrouping`,
`dateGrouping` outside day/month. -/
theorem claim4_validation (env : Env) (req : Req) :
    (falsyStr req.dateFrom →
      analyticsHistoricalEndpoint env req =
        [⟨400, .errBody "dateFrom is required"⟩])
  ∧ (∀ s : String, req.dateFrom = some s → s ≠ "" → parseYmd s = none →
      analyticsHistoricalEndpoint env req =
        [⟨400, .errBody "dateFrom is invalid"⟩])
  ∧ (∀ (s : String) (start : Ymd), req.dateFrom = some s →
      parseYmd s = some start → falsyStr req.dateGrouping →
      analyticsHistoricalEndpoint env req =
        [⟨400, .errBody "dateGrouping is required"⟩])
  ∧ (∀ (s g : String) (start : Ymd), req.dateFrom = some s →
      parseYmd s = some start → req.dateGrouping = some g →
      g ≠ "" → g ≠ "day" → g ≠ "month" →
      analyticsHistoricalEndpoint env req =
        [⟨400, .errBody "dateGrouping must be day or month"⟩]) := by
  refine ⟨fun c1 => endpoint_required_eq env req c1, ?_, ?_, ?_⟩
  · intro s h1 hne h2
    exact endpoint_invalid_eq env req h1 hne h2
  · intro s start h1 h2 c3
    exact endpoint_grouping_required_eq env req h1 h2 c3
  · intro s g start h1 h2 h3 hg0 hgd hgm
    exact endpoint_grouping_bad_eq env req h1 h2 h3 hg0 hgd hgm

theorem claim4_witness :
    analyticsHistoricalEndpoint envW ⟨none, some "day", none⟩ =
      [⟨400, .errBody "dateFrom is required"⟩]
  ∧ analyticsHistoricalEndpoint envW ⟨some "not-a-date", some "day", none⟩ =
      [⟨400, .errBody "dateFrom is invalid"⟩]
  ∧ analyticsHistoricalEndpoint envW ⟨some "2024-01-01", none, none⟩ =
      [⟨400, .errBody "dateGrouping is required"⟩]
  ∧ analyticsHistoricalEndpoint envW ⟨some "2024-01-01", some "week", none⟩ =
      [⟨400, .errBody "dateGrouping must be day or month"⟩] :=
  ⟨(claim4_validation envW ⟨none, some "day", none⟩).1 (by decide),
   (claim4_validation envW ⟨some "not-a-date", some "day", none⟩).2.1
     "not-a-date" rfl (by decide) (by decide),
   (claim4_validation envW ⟨some "2024-01-01", none, none⟩).2.2.1
     "2024-01-01" ⟨2024, 1, 1⟩ rfl (by decide) (by decide),
   (claim4_validation envW ⟨some "2024-01-01", some "week", none⟩).2.2.2
     "2024-01-01" "week" ⟨2024, 1, 1⟩ rfl (by decide) rfl
     (by decide) (by decide) (by decide)⟩

theorem mergeResults_nil_of_all_nil {rs : List (List FathomResult)}
    (h : ∀ l ∈ rs, l = []) : mergeResults rs = [] := by
  rw [mergeResults_eq_flatten]
  have hfl : rs.flatten = [] := by
    induction rs with
    | nil => rfl
    | cons l t ih =>
      rw [List.flatten_cons, h l (List.mem_cons_self l t),
        ih fun l2 hl2 => h l2 (List.mem_cons_of_mem l hl2)]
      rfl
  rw [hfl]
  rfl

/-- C10: when the parsed `dateFrom` is not strictly before `now`, the
scaffold is empty; if in addition every per-path provider result is
empty, the handler answers 200 with an empty array. -/
theorem claim10_empty_range (env : Env) (req : Req) {s g : String}
    {start : Ymd}
    (h1 : req.dateFrom = some s) (h2 : parseYmd s = some start)
    (h3 : req.dateGrouping = some g) (h4 : g = "day" ∨ g = "month")
    (h5 : env.profile.isSome) (h6 : ¬ falsyStr env.bucketUrl)
    (hnb : ¬ beforeNow start env.now)
    (hagg : ∀ df dg p, env.aggregate df dg p = []) :
    scaffold start env.now = [] ∧
    analyticsHistoricalEndpoint env req = [⟨200, .dataBody []⟩] := by
  have hsc : scaffold start env.now = [] := by
    unfold scaffold
    cases hfuel : env.now.date.ord + 1 - start.ord with
    | zero => rfl
    | succ k => rw [scaffoldAux_succ, if_neg hnb]
  refine ⟨hsc, ?_⟩
  rw [endpoint_valid_eq env req h1 h2 h3 h4 h5 h6, hsc]
  have hmr : mergeResults (fetchStage env s g) = [] := by
    refine mergeResults_nil_of_all_nil fun l hl => ?_
    obtain ⟨p, hp, hpl⟩ := List.mem_map.1 hl
    rw [← hpl, hagg]
  rw [hmr]
  rfl

theorem claim10_witness :
    scaffold ⟨2024, 1, 1⟩ envEmpty.now = [] ∧
    analyticsHistoricalEndpoint envEmpty reqW = [⟨200, .dataBody []⟩] :=
  claim10_empty_range envEmpty reqW rfl (by decide) rfl (Or.inl rfl)
    (by decide) (by decide) (by decide) (fun _ _ _ => rfl)

/-- C1: if any accumulated provider date has no exact match in the
scaffolded series, the client-visible response (the first send, per
HTTP first-write-wins) is a 500 whose body embeds the correlation
identifier returned by the reporter; no 200 and no partial series
reaches the client.  (Inside the loop the `return` only leaves the
`forEach` callback, so later sends are attempted, but they fail on the
already-committed response.) -/
theorem claim1_missing_date_aborts (env : Env) (req : Req)
    {s g : String} {start d : Ymd}
    (h1 : req.dateFrom = some s) (h2 : parseYmd s = some start)
    (h3 : req.dateGrouping = some g) (h4 : g = "day" ∨ g = "month")
    (h5 : env.profile.isSome) (h6 : ¬ falsyStr env.bucketUrl)
    (hd : d ∈ (fetchStage env s g).flatten.map FathomResult.date)
    (hnotin : d ∉ (scaffold start env.now).map Bucket.date) :
    abortsWithServerError env (analyticsHistoricalEndpoint env req) := by
  rw [endpoint_valid_eq env req h1 h2 h3 h4 h5 h6]
  unfold abortsWithServerError writeBack
  rw [writeBack_snd]
  have hdk : d ∈ (mergeResults (fetchStage env s g)).map Prod.fst := by
    have h7 : (dvFind (mergeResults (fetchStage env s g)) d).isSome :=
      (mergeResults_isSome_iff _ d).2 hd
    rwa [dvFind_isSome_iff] at h7
  obtain ⟨e, he, hed⟩ := List.mem_map.1 hdk
  have hef : e ∈ (mergeResults (fetchStage env s g)).filter
      (fun e => decide (e.1 ∉ (scaffold start env.now).map Bucket.date)) := by
    refine List.mem_filter.2 ⟨he, ?_⟩
    rw [hed]
    exact decide_eq_true hnotin
  obtain ⟨e0, t0, het⟩ :=
    List.exists_cons_of_ne_nil (List.ne_nil_of_mem hef)
  rw [het]
  refine ⟨"No index for date " ++ formatYmd e0.1 ++
    " and username " ++ username, ?_⟩
  simp [missingDateRsp]

theorem claim1_witness :
    abortsWithServerError envBad (analyticsHistoricalEndpoint envBad reqW) :=
  @claim1_missing_date_aborts envBad reqW "2024-01-01" "day"
    ⟨2024, 1, 1⟩ ⟨2030, 1, 5⟩ rfl (by decide)
    rfl (Or.inl rfl) (by decide) (by decide) (by decide) (by decide)

/-- C5 as stated is false: the code never validates the provider
strings, and `parseInt` keeps a leading minus sign, so a provider
value of `"-5"` reaches the 200 body as the negative integer `-5`. -/
theorem claim5_counterexample :
    analyticsHistoricalEndpoint envNeg reqW =
      [⟨200, .dataBody [⟨⟨2024, 1, 1⟩, some (-5), some 7⟩]⟩] ∧
    ¬ nonnegJs (some (-5)) :=
  ⟨by decide, by decide⟩

/-- C5 (amended): provided every provider-returned `visits` and
`pageviews` string parses to a non-negative integer, every bucket of
every `dataBody` (200) response carries non-negative integers. -/
theorem claim5_nonneg_amended (env : Env) (req : Req)
    (hnn : ∀ df dg p, ∀ r ∈ env.aggregate df dg p,
      nonnegJs (parseInt10 r.visits) ∧ nonnegJs (parseInt10 r.pageviews)) :
    ∀ rsp ∈ analyticsHistoricalEndpoint env req, ∀ l,
      rsp.body = .dataBody l →
      ∀ b ∈ l, nonnegJs b.visits ∧ nonnegJs b.pageviews := by
  intro rsp hrsp l hl b hb
  by_cases c1 : falsyStr req.dateFrom
  · rw [endpoint_required_eq env req c1] at hrsp
    simp at hrsp
    subst hrsp
    simp at hl
  · cases hdf : req.dateFrom with
    | none =>
      exfalso
      apply c1
      rw [hdf]
      trivial
    | some s =>
      have hsne : s ≠ "" := by
        intro he
        apply c1
        rw [hdf, he]
        simp [falsyStr]
      cases hp : parseYmd s with
      | none =>
        rw [endpoint_invalid_eq env req hdf hsne hp] at hrsp
        simp at hrsp
        subst hrsp
        simp at hl
      | some start =>
        by_cases c3 : falsyStr req.dateGrouping
        · rw [endpoint_grouping_required_eq env req hdf hp c3] at hrsp
          simp at hrsp
          subst hrsp
          simp at hl
        · cases hdg : req.dateGrouping with
          | none =>
            exfalso
            apply c3
            rw [hdg]
            trivial
          | some g =>
            have hgne : g ≠ "" := by
              intro he
              apply c3
              rw [hdg, he]
              simp [falsyStr]
            by_cases hgood : g = "day" ∨ g = "month"
            · by_cases c5 : env.profile.isNone = true ∨ falsyStr env.bucketUrl
              · rw [endpoint_profile_eq env req hdf hp hdg hgood c5] at hrsp
                simp at hrsp
                subst hrsp
                simp at hl
              · have h5 : env.profile.isSome := by
                  rcases not_or.1 c5 with ⟨hn, _⟩
                  cases hprof : env.profile with
                  | none =>
                    exfalso
                    apply hn
                    rw [hprof]
                    rfl
                  | some u => rfl
                have h6 : ¬ falsyStr env.bucketUrl := (not_or.1 c5).2
                rw [endpoint_valid_eq env req hdf hp hdg hgood h5 h6] at hrsp
                rcases List.mem_append.1 hrsp with herr | hok
                · exfalso
                  unfold writeBack at herr
                  rw [writeBack_snd] at herr
                  simp only [List.nil_append] at herr
                  obtain ⟨e, _, hre⟩ := List.mem_map.1 herr
                  rw [← hre] at hl
                  simp [missingDateRsp] at hl
                · simp at hok
                  subst hok
                  simp only [RspBody.dataBody.injEq] at hl
                  subst hl
                  unfold writeBack at hb
                  rcases writeBack_fst_mem env _ _ _ hb with
                    hsc | ⟨e, he, hbd, hbv, hbp⟩
                  · have hz := scaffoldAux_zeros hsc
                    have hv : b.visits = some 0 := congrArg Bucket.visits hz
                    have hw : b.pageviews = some 0 :=
                      congrArg Bucket.pageviews hz
                    rw [hv, hw]
                    exact ⟨by decide, by decide⟩
                  · have hval := mergeResults_mem_value he
                    have hrows : ∀ r ∈ (fetchStage env s g).flatten,
                        nonnegJs (parseInt10 r.visits) ∧
                          nonnegJs (parseInt10 r.pageviews) := by
                      intro r hr
                      obtain ⟨lr, hlr, hrlr⟩ := List.mem_flatten.1 hr
                      obtain ⟨p, hp2, hpl⟩ := List.mem_map.1 hlr
                      rw [← hpl] at hrlr
                      exact hnn s g p r hrlr
                    constructor
                    · rw [hbv, congrArg Prod.fst hval]
                      exact accumField_nonneg (by decide)
                        fun r hr => (hrows r hr).1
                    · rw [hbp, congrArg Prod.snd hval]
                      exact accumField_nonneg (by decide)
                        fun r hr => (hrows r hr).2
            · push_neg at hgood
              rw [endpoint_grouping_bad_eq env req hdf hp hdg hgne
                hgood.1 hgood.2] at hrsp
              simp at hrsp
              subst hrsp
              simp at hl

theorem claim5_witness :
    nonnegJs (parseInt10 "4") ∧
    nonnegJs (Bucket.visits ⟨⟨2024, 1, 2⟩, some 8, some 14⟩) ∧
    nonnegJs (Bucket.pageviews ⟨⟨2024, 1, 2⟩, some 8, some 14⟩) := by
  have hnn : ∀ df dg p, ∀ r ∈ envW.aggregate df dg p,
      nonnegJs (parseInt10 r.visits) ∧ nonnegJs (parseInt10 r.pageviews) := by
    intro df dg p r hr
    rcases List.mem_singleton.1 hr with rfl
    exact ⟨by decide, by decide⟩
  have h := claim5_nonneg_amended envW reqW hnn
    ⟨200, .dataBody [⟨⟨2024, 1, 1⟩, some 0, some 0⟩,
      ⟨⟨2024, 1, 2⟩, some 8, some 14⟩, ⟨⟨2024, 1, 3⟩, some 0, some 0⟩]⟩
    (by decide)
    [⟨⟨2024, 1, 1⟩, some 0, some 0⟩, ⟨⟨2024, 1, 2⟩, some 8, some 14⟩,
      ⟨⟨2024, 1, 3⟩, some 0, some 0⟩]
    rfl ⟨⟨2024, 1, 2⟩, some 8, some 14⟩ (by decide)
  exact ⟨by decide, h.1, h.2⟩

/-- C6: a scaffold-range day that no per-path provider result mentions
keeps its zero-initialized bucket in the final 200 series. -/
theorem claim6_missing_day_zero (env : Env) (req : Req)
    {s g : String} {start d : Ymd}
    (h1 : req.dateFrom = some s) (h2 : parseYmd s = some start)
    (h3 : req.dateGrouping = some g) (h4 : g = "day" ∨ g = "month")
    (h5 : env.profile.isSome) (h6 : ¬ falsyStr env.bucketUrl)
    (hdscaf : d ∈ (scaffold start env.now).map Bucket.date)
    (hnod : d ∉ (fetchStage env s g).flatten.map FathomResult.date) :
    keepsZeroBucket env req d := by
  unfold keepsZeroBucket
  rw [endpoint_valid_eq env req h1 h2 h3 h4 h5 h6]
  refine ⟨(writeBack env (mergeResults (fetchStage env s g))
    (scaffold start env.now)).1, List.getLast?_concat _, ?_, ?_⟩
  · unfold writeBack
    rw [writeBack_fst_map_date]
    exact hdscaf
  · intro b hb hbd
    unfold writeBack at hb
    rcases writeBack_fst_mem env _ _ _ hb with hsc | ⟨e, he, hbe, _, _⟩
    · exact (scaffoldAux_zeros hsc).trans (by rw [hbd])
    · exfalso
      have hk : e.1 ∈ (mergeResults (fetchStage env s g)).map Prod.fst :=
        List.mem_map.2 ⟨e, he, rfl⟩
      have h7 : (dvFind (mergeResults (fetchStage env s g)) e.1).isSome :=
        (dvFind_isSome_iff _ _).2 hk
      have h8 := (mergeResults_isSome_iff _ _).1 h7
      rw [← hbe, hbd] at h8
      exact hnod h8

theorem claim6_witness : keepsZeroBucket envW reqW ⟨2024, 1, 3⟩ :=
  @claim6_missing_day_zero envW reqW "2024-01-01" "day"
    ⟨2024, 1, 1⟩ ⟨2024, 1, 3⟩ rfl (by decide)
    rfl (Or.inl rfl) (by decide) (by decide) (by decide) (by decide)

/-- C7: write-back only overwrites `visits`/`pageviews` of buckets
whose date is an accumulated date; dates, length and order of the
series are unchanged, so the 200 series carries exactly the scaffold's
chronological ordering. -/
theorem claim7_writeback_frame (env : Env) (req : Req)
    {s g : String} {start : Ymd}
    (h1 : req.dateFrom = some s) (h2 : parseYmd s = some start)
    (h3 : req.dateGrouping = some g) (h4 : g = "day" ∨ g = "month")
    (h5 : env.profile.isSome) (h6 : ¬ falsyStr env.bucketUrl) :
    (∀ dv hist, writeBackFrame env dv hist) ∧
    finalOrderingFromScaffold env req start := by
  have hframe : ∀ dv hist, writeBackFrame env dv hist := by
    intro dv hist
    have hmap : (writeBack env dv hist).1.map Bucket.date =
        hist.map Bucket.date := by
      unfold writeBack
      exact writeBack_fst_map_date env dv hist []
    refine ⟨hmap, ?_, ?_⟩
    · have hlen := congrArg List.length hmap
      simpa using hlen
    · intro b hb
      unfold writeBack at hb
      exact writeBack_fst_mem env dv hist [] hb
  refine ⟨hframe, ?_⟩
  unfold finalOrderingFromScaffold
  rw [endpoint_valid_eq env req h1 h2 h3 h4 h5 h6]
  have h := hframe (mergeResults (fetchStage env s g)) (scaffold start env.now)
  exact ⟨_, List.getLast?_concat _, h.1, h.2.1⟩

theorem claim7_witness :
    writeBackFrame envW [(⟨2024, 1, 2⟩, (some 8, some 14))]
      (scaffold ⟨2024, 1, 1⟩ envW.now) ∧
    finalOrderingFromScaffold envW reqW ⟨2024, 1, 1⟩ :=
  ⟨(@claim7_writeback_frame envW reqW "2024-01-01" "day" ⟨2024, 1, 1⟩
      rfl (by decide) rfl (Or.inl rfl) (by decide) (by decide)).1 _ _,
   (@claim7_writeback_frame envW reqW "2024-01-01" "day" ⟨2024, 1, 1⟩
      rfl (by decide) rfl (Or.inl rfl) (by decide) (by decide)).2⟩

/-- C8: the aggregation always targets the fixed username
`sigleapp.id.blockstack` whatever the requester is, and the queried
path list is one story path per published story followed by the root
path as last element (published-story count plus one paths). -/
theorem claim8_paths (env : Env) (df dg : String) :
    storiesPath env.stories =
      (env.stories.map fun sid => "/" ++ username ++ "/" ++ sid) ++
        ["/" ++ username]
  ∧ (storiesPath env.stories).length = env.stories.length + 1
  ∧ (storiesPath env.stories).getLast? = some ("/" ++ username)
  ∧ username = "sigleapp.id.blockstack"
  ∧ fetchStage env df dg =
      ((storiesPath env.stories).map fun path => env.aggregate df dg path)
  ∧ (∀ q1 q2 : Req, q1.dateFrom = q2.dateFrom →
      q1.dateGrouping = q2.dateGrouping →
      analyticsHistoricalEndpoint env q1 = analyticsHistoricalEndpoint env q2)
    := by
  refine ⟨rfl, by simp [storiesPath], List.getLast?_concat _, rfl, rfl, ?_⟩
  intro q1 q2 hdf hdg
  obtain ⟨df1, dg1, r1⟩ := q1
  obtain ⟨df2, dg2, r2⟩ := q2
  dsimp only at hdf hdg
  subst hdf
  subst hdg
  rfl

theorem claim8_witness :
    (storiesPath envW.stories).length = envW.stories.length + 1 ∧
    (storiesPath envW.stories).getLast? = some ("/" ++ username) ∧
    analyticsHistoricalEndpoint envW reqW =
      analyticsHistoricalEndpoint envW reqW2 :=
  ⟨(claim8_paths envW "2024-01-01" "day").2.1,
   (claim8_paths envW "2024-01-01" "day").2.2.1,
   (claim8_paths envW "2024-01-01" "day").2.2.2.2.2 reqW reqW2 rfl rfl⟩

end Sigle
